import Mathlib

/-!
Verification of the in-process hashed-key cache, its obfuscation engine,
and the write-serialization queue (sources: `snippets/cache.js`, the queue
module `Queue` / `ProcessQueue`, and the `setUnboundedTimeout` helper).

JavaScript strings are embedded as `List Char`.  The platform primitives
that cannot be embedded directly are modelled abstractly but executably:

* AES-256-CBC is modelled as a keyed invertible character-wise transform
  rendered in fixed-width hexadecimal (the claims depend only on the cipher
  being a keyed bijection producing colon-free hex output);
* `JSON.stringify` / `JSON.parse` are modelled as the identity on a
  canonical JSON text carried inside object/array values (faithful for
  plain data, where `parse (stringify v)` is deep-equal to `v`);
* `crypto.createHash("sha256")` is modelled as an injective digest of the
  key (collision-freedom of SHA-256 is assumed, so the digest is embedded
  as the identity tag on the key string);
* JavaScript numbers are embedded as integers (`toString` / `Number`
  round-tripping, which is all the code relies on, holds for both).
-/

/-- JavaScript strings, embedded as lists of characters. -/
abbrev JStr := List Char

namespace JsCache

/-- Hexadecimal digit characters, lowercase, as produced by
`Buffer.toString("hex")` and the hex output encoding of the cipher. -/
def hexDigit (n : Nat) : Char :=
  if n < 10 then Char.ofNat (48 + n) else Char.ofNat (87 + n)

/-- Numeric value of a lowercase hexadecimal digit character. -/
def hexVal (c : Char) : Nat :=
  if 97 ≤ c.toNat then c.toNat - 87 else c.toNat - 48

/-- Fixed-width (8 hex digits) rendering of a 32-bit quantity. -/
def natToHex8 (n : Nat) : JStr :=
  [hexDigit (n / 16 ^ 7 % 16), hexDigit (n / 16 ^ 6 % 16),
   hexDigit (n / 16 ^ 5 % 16), hexDigit (n / 16 ^ 4 % 16),
   hexDigit (n / 16 ^ 3 % 16), hexDigit (n / 16 ^ 2 % 16),
   hexDigit (n / 16 % 16), hexDigit (n % 16)]

/-- Parse a hex string into a number (`Buffer.from(s, "hex")`). -/
def hexToNat (s : JStr) : Nat :=
  s.foldl (fun a c => a * 16 + hexVal c) 0

/-- Modulus for the character-wise cipher model (32-bit arithmetic; every
Unicode scalar value fits). -/
def cipherMod : Nat := 4294967296

/-- Model of AES-256-CBC encryption of one character under `key` and `iv`:
a keyed shift rendered as 8 hex digits.  The real cipher is a keyed
bijection on byte strings whose output is hex-encoded; the claims depend
only on invertibility under the matching key and on the output containing
no colon. -/
def encChar (key iv : Nat) (c : Char) : JStr :=
  natToHex8 ((c.toNat + key + iv) % cipherMod)

/-- Model of `cipher.update(s, "utf8", "hex") + cipher.final("hex")`. -/
def encryptHex (key iv : Nat) (s : JStr) : JStr :=
  (s.map (encChar key iv)).flatten

/-- Inverse keyed shift of the cipher model on one 32-bit block. -/
def decChar (key iv : Nat) (x : Nat) : Char :=
  Char.ofNat ((x + (cipherMod - (key + iv) % cipherMod)) % cipherMod)

/-- Model of `decipher.update(ct, "hex", "utf8") + decipher.final("utf8")`:
decode consecutive 8-hex-digit blocks with the inverse keyed shift. -/
def decryptHex (key iv : Nat) : JStr → JStr
  | c0 :: c1 :: c2 :: c3 :: c4 :: c5 :: c6 :: c7 :: rest =>
      decChar key iv (hexToNat [c0, c1, c2, c3, c4, c5, c6, c7]) ::
        decryptHex key iv rest
  | _ => []

/-- Model of `string.split(":")` from `Obfuscator.decode`, on embedded
strings (JavaScript `split` semantics: returns the list of maximal
colon-free segments, including empty ones). -/
def splitOnColon : JStr → List JStr
  | [] => [[]]
  | c :: rest =>
      if c = ':' then [] :: splitOnColon rest
      else
        match splitOnColon rest with
        | [] => [[c]]
        | p :: ps => (c :: p) :: ps

/-- JavaScript values of the types the cache deals with.  `obj` / `arr`
carry the canonical JSON text of the value (see the header comment);
`fn` / `undef` / `sym` are the non-serializable types rejected by
`Cache.write`. -/
inductive JSValue where
  | str (s : JStr)
  | num (n : Int)
  | bool (b : Bool)
  | bigint (n : Int)
  | obj (json : JStr)
  | arr (json : JStr)
  | fn
  | undef
  | sym
  deriving DecidableEq, Repr

/-- Decimal rendering of a natural number (JavaScript `toString`). -/
def natToDec (n : Nat) : JStr := Nat.toDigits 10 n

/-- Decimal rendering of an integer (JavaScript `toString` for numbers and
bigints). -/
def intToDec (n : Int) : JStr :=
  if n < 0 then '-' :: natToDec n.natAbs else natToDec n.natAbs

/-- Parse a decimal digit string (helper for the `Number` model). -/
def parseNat (s : JStr) : Nat :=
  s.foldl (fun a c => a * 10 + (c.toNat - 48)) 0

/-- Model of `Number(string)` as used by `Obfuscator.toType` on the decimal
renderings produced by `converttostring`. -/
def jsNumber (s : JStr) : Int :=
  match s with
  | '-' :: rest => -(parseNat rest : Int)
  | _ => (parseNat s : Int)

/-- Model of `string.toLowerCase()`. -/
def jsToLower (s : JStr) : JStr := s.map Char.toLower

/-- The `typeof`-derived tag computed by the source
(`Array.isArray(value) ? "array" : typeof value`). -/
def typeOfValue : JSValue → JStr
  | .str _ => "string".data
  | .num _ => "number".data
  | .bool _ => "boolean".data
  | .bigint _ => "bigint".data
  | .obj _ => "object".data
  | .arr _ => "array".data
  | .fn => "function".data
  | .undef => "undefined".data
  | .sym => "symbol".data

/-- `Obfuscator.converttostring`: serializes a value to a string together
with its type tag.  Numbers, booleans and bigints go through `toString`;
objects and arrays through `JSON.stringify` (modelled as their carried
canonical text); strings are returned as-is.  For the non-serializable
types (`function` / `undefined` / `symbol`) the JavaScript code would fall
into the default branch and store a non-string; those values never reach
this function (`Cache.write` rejects them first), and are modelled as
`none`. -/
def converttostring : JSValue → Option (JStr × JStr)
  | .str s => some (s, "string".data)
  | .num n => some (intToDec n, "number".data)
  | .bool b => some ((if b then "true" else "false").data, "boolean".data)
  | .bigint n => some (intToDec n, "bigint".data)
  | .obj j => some (j, "object".data)
  | .arr j => some (j, "array".data)
  | .fn => none
  | .undef => none
  | .sym => none

/-- `Obfuscator.toType`: converts a decrypted string back per the type tag.
Faithful to the source switch statement, including the missing `break` in
the `bigint` case: the JavaScript code computes `BigInt(string)` and then
falls through into the `boolean` case, which overwrites the result with
`string.toLowerCase() === "true"`. -/
def toType (s ty : JStr) : JSValue :=
  if ty = "number".data then .num (jsNumber s)
  else if ty = "bigint".data then .bool (jsToLower s = "true".data)
  else if ty = "boolean".data then .bool (jsToLower s = "true".data)
  else if ty = "object".data then .obj s
  else if ty = "array".data then .arr s
  else .str s

/-- `Obfuscator.encode`: serializes the value, encrypts it under the active
key with a fresh random IV (modelled as the explicit `iv` argument), and
returns `iv_hex : ciphertext_hex : type`.  The `obfuscated` event wrapper
around the computation does not affect the result and is elided. -/
def encode (key iv : Nat) (v : JSValue) : Option JStr :=
  (converttostring v).map fun p =>
    natToHex8 iv ++ ':' :: (encryptHex key iv p.1 ++ ':' :: p.2)

/-- Errors the decode path can raise: the explicit invalid-format throw of
`Obfuscator.decode`, and the `TypeError` JavaScript raises when
`string.split` is applied to a non-string value (which happens when a
non-string `value` field reaches `decode`). -/
inductive DecodeError where
  | invalidFormat
  | typeError
  deriving DecidableEq, Repr

/-- `Obfuscator.decode`: splits on `:` into exactly 3 parts (throws
otherwise), parses the IV from hex, decrypts with the active key, and
restores the type via `toType`.  Applied to a non-string value it raises
a `TypeError` (`value.split` is not a function). -/
def decode (key : Nat) (v : JSValue) : Except DecodeError JSValue :=
  match v with
  | .str s =>
      match splitOnColon s with
      | [ivHex, ct, ty] =>
          .ok (toType (decryptHex key (hexToNat ivHex) ct) ty)
      | _ => .error .invalidFormat
  | _ => .error .typeError

/-- The bounded circular-buffer queue from the queue module (`class Queue`).
`items` is the backing array (slots hold `none` where JavaScript holds
`undefined`), `front` / `rear` are the circular indices and `size` the
element count, exactly as in the source. -/
structure Queue (α : Type) where
  capacity : Nat
  items : List (Option α)
  front : Nat
  size : Nat
  rear : Nat
  deriving DecidableEq, Repr

namespace Queue

/-- The `Queue` constructor: `items = new Array(capacity)` (all slots
empty), `front = size = 0`, `rear = capacity - 1`. -/
def make (α : Type) (capacity : Nat) : Queue α :=
  ⟨capacity, List.replicate capacity none, 0, 0, capacity - 1⟩

/-- `Queue.isEmpty`: `size === 0`. -/
def isEmpty (q : Queue α) : Bool := q.size = 0

/-- `Queue.isFull`: `size === capacity`. -/
def isFull (q : Queue α) : Bool := q.size = q.capacity

/-- `Queue.enqueue`: throws `Queue is full` when full, else advances `rear`
circularly, stores the item there and increments `size`. -/
def enqueue (q : Queue α) (item : α) : Except JStr (Queue α) :=
  if q.isFull then .error "Queue is full".data
  else
    let r := (q.rear + 1) % q.capacity
    .ok { q with rear := r, items := q.items.set r (some item),
                 size := q.size + 1 }

/-- `Queue.dequeue`: throws `Queue is empty` when empty, else returns the
slot at `front` (JavaScript would return `undefined` for a vacant slot,
modelled by the `Option`), clears it, advances `front` circularly and
decrements `size`. -/
def dequeue (q : Queue α) : Except JStr (Option α × Queue α) :=
  if q.isEmpty then .error "Queue is empty".data
  else
    .ok (q.items.getD q.front none,
         { q with items := q.items.set q.front none,
                  front := (q.front + 1) % q.capacity,
                  size := q.size - 1 })

/-- `Queue.peek`: throws `Queue is empty` when empty, else returns the
front slot without removing it. -/
def peek (q : Queue α) : Except JStr (Option α) :=
  if q.isEmpty then .error "Queue is empty".data
  else .ok (q.items.getD q.front none)

/-- The logical FIFO contents of the circular buffer: the `size` slots
starting at `front`, oldest first. -/
def contents (q : Queue α) : List (Option α) :=
  (List.range q.size).map fun i => q.items.getD ((q.front + i) % q.capacity) none

/-- Structural invariant of a queue built by `make` and maintained by
`enqueue` / `dequeue`: positive capacity, backing array of length
`capacity`, `front` in range, `size` bounded, and `rear` one slot before
`front + size` circularly. -/
structure Inv (q : Queue α) : Prop where
  capacity_pos : 0 < q.capacity
  items_length : q.items.length = q.capacity
  front_lt : q.front < q.capacity
  size_le : q.size ≤ q.capacity
  rear_mod : q.rear % q.capacity = (q.front + q.size + (q.capacity - 1)) % q.capacity

theorem inv_make (α : Type) (capacity : Nat) (h : 0 < capacity) :
    Inv (make α capacity) := by
  constructor
  · exact h
  · simp [make]
  · simpa [make] using h
  · simp [make]
  · show (capacity - 1) % capacity = (0 + 0 + (capacity - 1)) % capacity
    congr 1
    omega

theorem contents_make (α : Type) (capacity : Nat) :
    contents (make α capacity) = [] := by
  simp [contents, make]

theorem getD_set_ne {α : Type} (l : List (Option α)) (r a : Nat) (v : Option α)
    (h : a ≠ r) : (l.set r v).getD a none = l.getD a none := by
  rw [List.getD_eq_getElem?_getD, List.getD_eq_getElem?_getD,
    List.getElem?_set_ne (by omega)]

theorem getD_set_self {α : Type} (l : List (Option α)) (r : Nat) (v : Option α)
    (h : r < l.length) : (l.set r v).getD r none = v := by
  rw [List.getD_eq_getElem?_getD, List.getElem?_set_self h]
  rfl

theorem add_mod_ne (front i j cap : Nat) (hi : i < cap) (hj : j < cap)
    (hne : i ≠ j) : (front + i) % cap ≠ (front + j) % cap := by
  intro h
  have h2 : i % cap = j % cap := Nat.ModEq.add_left_cancel' front h
  rw [Nat.mod_eq_of_lt hi, Nat.mod_eq_of_lt hj] at h2
  exact hne h2

theorem mod_shift_ne (front k cap : Nat) (hfront : front < cap) (hk : 0 < k)
    (hklt : k < cap) : (front + k) % cap ≠ front := by
  intro h
  have h0 : (front + k) % cap = (front + 0) % cap := by
    rw [h]
    simp [Nat.mod_eq_of_lt hfront]
  exact add_mod_ne front k 0 cap hklt (by omega) (by omega) h0

/-- When not full, `enqueue` succeeds, increments `size`, preserves the
invariant and appends the item to the FIFO contents. -/
theorem enqueue_ok {α : Type} (q : Queue α) (x : α) (hInv : Inv q)
    (h : q.size ≠ q.capacity) :
    ∃ q', enqueue q x = .ok q' ∧ q'.size = q.size + 1 ∧
      q'.capacity = q.capacity ∧ Inv q' ∧
      contents q' = contents q ++ [some x] := by
  obtain ⟨hpos, hlen, hfront, hsize, hrear⟩ := hInv
  have hszlt : q.size < q.capacity := by omega
  refine ⟨{ q with
      rear := (q.rear + 1) % q.capacity
      items := q.items.set ((q.rear + 1) % q.capacity) (some x)
      size := q.size + 1 }, by simp [enqueue, isFull, h], rfl, rfl, ?_, ?_⟩
  · refine ⟨hpos, by simpa using hlen, hfront, ?_, ?_⟩
    · show q.size + 1 ≤ q.capacity
      omega
    · show (q.rear + 1) % q.capacity % q.capacity =
        (q.front + (q.size + 1) + (q.capacity - 1)) % q.capacity
      rw [Nat.mod_eq_of_lt (Nat.mod_lt _ hpos)]
      calc (q.rear + 1) % q.capacity
          = (q.rear % q.capacity + 1) % q.capacity := (Nat.mod_add_mod _ _ _).symm
        _ = (q.front + q.size + (q.capacity - 1) + 1) % q.capacity := by
            rw [hrear, Nat.mod_add_mod]
        _ = (q.front + (q.size + 1) + (q.capacity - 1)) % q.capacity := by
            rw [show q.front + q.size + (q.capacity - 1) + 1
              = q.front + (q.size + 1) + (q.capacity - 1) by omega]
  · have hsetpos : (q.rear + 1) % q.capacity = (q.front + q.size) % q.capacity := by
      rw [← Nat.mod_add_mod, hrear, Nat.mod_add_mod,
        show q.front + q.size + (q.capacity - 1) + 1
          = q.front + q.size + q.capacity by omega,
        Nat.add_mod_right]
    show (List.range (q.size + 1)).map _ = _
    rw [List.range_succ, List.map_append]
    congr 1
    · apply List.map_congr_left
      intro i hi
      rw [List.mem_range] at hi
      apply getD_set_ne
      rw [hsetpos]
      exact add_mod_ne q.front i q.size q.capacity (by omega) hszlt (by omega)
    · show [_] = [some x]
      congr 1
      rw [hsetpos]
      apply getD_set_self
      rw [hlen]
      exact Nat.mod_lt _ hpos

/-- When full, `enqueue` throws `Queue is full`. -/
theorem enqueue_full {α : Type} (q : Queue α) (x : α) (h : q.size = q.capacity) :
    enqueue q x = .error "Queue is full".data := by
  simp [enqueue, isFull, h]

/-- When empty, `dequeue` and `peek` throw `Queue is empty`. -/
theorem dequeue_empty {α : Type} (q : Queue α) (h : q.size = 0) :
    dequeue q = .error "Queue is empty".data ∧
      peek q = .error "Queue is empty".data := by
  constructor <;> simp [dequeue, peek, isEmpty, h]

/-- When nonempty, `dequeue` succeeds, returns the oldest item (the head
of the FIFO contents), decrements `size`, preserves the invariant, and the
new contents are the tail of the old ones. -/
theorem dequeue_ok {α : Type} (q : Queue α) (hInv : Inv q) (h : q.size ≠ 0) :
    ∃ item q', dequeue q = .ok (item, q') ∧ item = (contents q).headD none ∧
      q'.size = q.size - 1 ∧ Inv q' ∧ contents q' = (contents q).tail := by
  obtain ⟨hpos, hlen, hfront, hsize, hrear⟩ := hInv
  refine ⟨q.items.getD q.front none,
    { q with
        items := q.items.set q.front none
        front := (q.front + 1) % q.capacity
        size := q.size - 1 },
    by simp [dequeue, isEmpty, h], ?_, rfl, ?_, ?_⟩
  · have hc : contents q = (List.range q.size).map
        fun i => q.items.getD ((q.front + i) % q.capacity) none := rfl
    rw [hc]
    obtain ⟨n, hn⟩ : ∃ n, q.size = n + 1 := ⟨q.size - 1, by omega⟩
    rw [hn, List.range_succ_eq_map]
    simp [Nat.mod_eq_of_lt hfront]
  · refine ⟨hpos, by simpa using hlen, Nat.mod_lt _ hpos, ?_, ?_⟩
    · show q.size - 1 ≤ q.capacity
      omega
    · show q.rear % q.capacity =
        ((q.front + 1) % q.capacity + (q.size - 1) + (q.capacity - 1)) % q.capacity
      rw [hrear]
      conv_rhs => rw [Nat.add_assoc, Nat.mod_add_mod]
      congr 1
      omega
  · show (List.range (q.size - 1)).map _ = _
    have htail : (contents q).tail = (List.range (q.size - 1)).map
        fun i => q.items.getD ((q.front + (i + 1)) % q.capacity) none := by
      obtain ⟨n, hn⟩ : ∃ n, q.size = n + 1 := ⟨q.size - 1, by omega⟩
      show (contents q).tail = _
      rw [contents, hn, List.range_succ_eq_map]
      simp [Function.comp_def, Nat.add_comm 1]
    rw [htail]
    apply List.map_congr_left
    intro i hi
    rw [List.mem_range] at hi
    rw [Nat.mod_add_mod]
    rw [show q.front + 1 + i = q.front + (i + 1) by omega]
    exact getD_set_ne _ _ _ _
      (mod_shift_ne q.front (i + 1) q.capacity hfront (by omega) (by omega))

end Queue

/-- A job queued on `ProcessQueue`: the enqueued pair
`{ function: item, callback: processCompleteCallback }`.  For the drain
loop only the control behaviour matters, so a job is modelled by whether
its work function throws, whether a completion callback was supplied, and
whether that callback throws. -/
structure PJob where
  workThrows : Bool
  hasCallback : Bool
  callbackThrows : Bool
  deriving DecidableEq, Repr

/-- Whether running a job inside the drain loop raises: the work function
throws, or a supplied callback throws (the callback only runs when the
work function succeeded). -/
def runJobThrows (j : PJob) : Bool :=
  j.workThrows || (j.hasCallback && j.callbackThrows)

/-- One invocation of `ProcessQueue.execute` over the FIFO contents of the
queue (`jobs`, oldest first): the `while (!this.isEmpty())` loop dequeues
and runs jobs one at a time.  The `try/catch` wraps the whole loop, so a
throw from a job or its callback exits the loop into the `catch` (which
logs) and the `finally` (which resets `isExecuting`).  The
`if (!item) continue` guard of the source cannot fire for jobs admitted
by `enqueue` (which asserts the work item is a function), so it has no
counterpart here.  Returns the jobs that were attempted in this pass, the
jobs still queued when the pass ended, and whether the catch block logged
an error. -/
def drainPass : List PJob → List PJob × List PJob × Bool
  | [] => ([], [], false)
  | j :: rest =>
      if runJobThrows j then ([j], rest, true)
      else
        let r := drainPass rest
        (j :: r.1, r.2.1, r.2.2)

theorem drainPass_split (jobs : List PJob) :
    (drainPass jobs).1 ++ (drainPass jobs).2.1 = jobs := by
  induction jobs with
  | nil => rfl
  | cons j rest ih =>
      by_cases hj : runJobThrows j <;> simp [drainPass, hj, ih]

theorem drainPass_progress (jobs : List PJob) (h : jobs ≠ []) :
    (drainPass jobs).2.1.length < jobs.length := by
  induction jobs with
  | nil => exact absurd rfl h
  | cons j rest ih =>
      by_cases hj : runJobThrows j = true
      · simp [drainPass, hj]
      · rw [Bool.not_eq_true] at hj
        by_cases hr : rest = []
        · subst hr
          simp [drainPass, hj]
        · have hlt := ih hr
          simp [drainPass, hj]
          omega

/-- Repeated drain passes, as triggered by `ProcessQueue.enqueue`: each
`enqueue` calls `execute` when `isExecuting` is false, and the `finally`
clause of `execute` resets `isExecuting`, so after a pass aborts, the next
enqueue (or direct `execute` call) starts a new pass over the remaining
jobs.  Returns the concatenated execution order across passes. -/
def drainAll (jobs : List PJob) : List PJob :=
  if h : jobs = [] then []
  else
    (drainPass jobs).1 ++ drainAll (drainPass jobs).2.1
termination_by jobs.length
decreasing_by
  exact drainPass_progress jobs h

theorem drainAll_complete (jobs : List PJob) : drainAll jobs = jobs := by
  by_cases h : jobs = []
  · subst h
    rw [drainAll]
    rfl
  · rw [drainAll, dif_neg h,
      drainAll_complete (drainPass jobs).2.1, drainPass_split]
termination_by jobs.length
decreasing_by
  exact drainPass_progress jobs h

theorem drainPass_no_throw (jobs : List PJob)
    (h : ∀ j ∈ jobs, runJobThrows j = false) :
    drainPass jobs = (jobs, [], false) := by
  induction jobs with
  | nil => rfl
  | cons j rest ih =>
      have hj : runJobThrows j = false := h j (by simp)
      have hrest := ih fun x hx => h x (by simp [hx])
      simp [drainPass, hj, hrest]

theorem drainPass_remaining_of_throw (pre : List PJob) (j : PJob)
    (post : List PJob) (hpre : ∀ x ∈ pre, runJobThrows x = false)
    (hj : runJobThrows j = true) :
    drainPass (pre ++ j :: post) = (pre ++ [j], post, true) := by
  induction pre with
  | nil => simp [drainPass, hj]
  | cons p rest ih =>
      have hp : runJobThrows p = false := hpre p (by simp)
      have := ih fun x hx => hpre x (by simp [hx])
      simp [drainPass, hp, this]

/-- Timer bookkeeping for the `setUnboundedTimeout` helper and the Node
`clearTimeout` function.  `pending` records the scheduled timers as
`(id, total delay in ms)`; the callback of every rotation timer is
`() => this.rotateKey()`, so the callback needs no representation. -/
structure TimerState where
  nextId : Nat
  pending : List (Nat × Nat)
  deriving DecidableEq, Repr

/-- A value that can be passed to `clearTimeout`: either a genuine timeout
id as returned by `setTimeout`, or the clear *function* returned by
`setUnboundedTimeout` (closing over the timeout id it would clear when
invoked). -/
inductive TimerHandle where
  | timeoutId (id : Nat)
  | clearFn (id : Nat)
  deriving DecidableEq, Repr

/-- Model of the Node `clearTimeout` builtin: cancels the pending timeout when given a
timeout object, and silently ignores any other argument — in particular a
function value. -/
def clearTimeoutJs (ts : TimerState) (h : TimerHandle) : TimerState :=
  match h with
  | .timeoutId id => { ts with pending := ts.pending.filter fun p => p.1 ≠ id }
  | .clearFn _ => ts

/-- `setUnboundedTimeout(callback, delay)`: schedules the callback after
`delay` (the chaining of sub-delays beyond the platform maximum is
collapsed into a single pending record carrying the total delay) and
returns a *function* that clears the timeout when invoked.  The
guard rejecting delays beyond `1e12` ms is modelled by the caller never
exceeding it (rotation durations are far below). -/
def setUnboundedTimeout (ts : TimerState) (delay : Nat) :
    TimerState × TimerHandle :=
  ({ ts with
      nextId := ts.nextId + 1
      pending := ts.pending ++ [(ts.nextId, delay)] },
   .clearFn ts.nextId)

/-- The scheduling-relevant state of an `Obfuscator`: the active key
(`#fideliusCharm`, `none` until first generated), the rotation period in
milliseconds (`#defaultKeyRotationDuration`), the stored result of the
last `setUnboundedTimeout` call (`#existingRotatorTimerObject`), and the
timer bookkeeping. -/
structure ObfSchedState where
  fideliusCharm : Option Nat
  rotationMs : Nat
  existingRotatorTimerObject : Option TimerHandle
  timers : TimerState
  deriving DecidableEq, Repr

/-- `Obfuscator.#rotator`: generates the key if absent and schedules a
rotation via `setUnboundedTimeout` after the current rotation duration,
storing the returned handle (the clear function). -/
def rotator (freshKey : Nat) (st : ObfSchedState) : ObfSchedState :=
  let key := match st.fideliusCharm with
    | none => some freshKey
    | some k => some k
  let p := setUnboundedTimeout st.timers st.rotationMs
  { st with
      fideliusCharm := key
      timers := p.1
      existingRotatorTimerObject := some p.2 }

/-- The `defaultKeyRotationDuration` setter: stores the new duration, and
(in the emitter callback for `rotation_duration_changed`) calls
`clearTimeout(this.#existingRotatorTimerObject)` — note: `clearTimeout`,
not an invocation of the stored clear function — and then `#rotator()`. -/
def setDefaultKeyRotationDuration (freshKey : Nat) (st : ObfSchedState)
    (durationMs : Nat) : ObfSchedState :=
  let st1 := { st with rotationMs := durationMs }
  let st2 :=
    match st1.existingRotatorTimerObject with
    | some h => { st1 with timers := clearTimeoutJs st1.timers h }
    | none => st1
  rotator freshKey st2

/-- A fresh `Obfuscator` as built by the constructor: 90-day rotation
duration, then `#rotator()` generates the key and schedules the first
rotation. -/
def obfConstruct (freshKey : Nat) : ObfSchedState :=
  rotator freshKey
    { fideliusCharm := none
      rotationMs := 7776000000
      existingRotatorTimerObject := none
      timers := { nextId := 0, pending := [] } }

/-- Whitespace characters matched by the `/\s/g` regex used in
`Cache.#createHashKey` (space, tab, line feed, vertical tab, form feed,
carriage return, no-break space; the rarer Unicode space separators are
not needed by any claim). -/
def isJsSpace (c : Char) : Bool :=
  c = ' ' || c = '\t' || c = '\n' || c = Char.ofNat 11 || c = Char.ofNat 12 ||
    c = '\r' || c = Char.ofNat 160

/-- The `key.replace(/\s/g, "")` step of `Cache.#createHashKey`. -/
def stripWhitespace (s : JStr) : JStr :=
  s.filter fun c => !(isJsSpace c)

/-- The JavaScript 32-bit signed coercion (`ToInt32`), applied by the `<<`
operator. -/
def toInt32 (x : Int) : Int :=
  (x + 2147483648).emod 4294967296 - 2147483648

/-- One iteration of the hash loop:
`hash = (hash << 5) + hash + key.charCodeAt(i)`.  The shift coerces to a
signed 32-bit value; the additions are exact (the claims only involve keys
short enough that the float arithmetic of the source is exact). -/
def hashStep (h : Int) (c : Char) : Int :=
  toInt32 (h * 32) + h + (c.toNat : Int)

/-- The hash loop of `Cache.#createHashKey` after whitespace stripping,
seeded from the `CACHE_HASH_KEY_INITALIZER` configuration value. -/
def hashKeyRaw (seed : Int) (k : JStr) : Int :=
  (stripWhitespace k).foldl hashStep seed

/-- Error kinds raised by the cache paths under study.  `hashKeyNotSet`
models the `Cache hash key is not set.` throw (seed missing, `NaN`, or
`0` — all falsy); the other constructors model the corresponding
`CacheException` codes. -/
inductive CacheErr where
  | hashKeyNotSet
  | nonCachableValue
  | unableToObfuscate
  deriving DecidableEq, Repr

/-- `Cache.#createHashKey`: parses the seed, strips whitespace, throws if
the seed is falsy, and runs the hash loop. -/
def createHashKey (seed : Int) (k : JStr) : Except CacheErr Int :=
  if seed = 0 then .error .hashKeyNotSet else .ok (hashKeyRaw seed k)

/-- `Cache.#createCheckSum`: the SHA-256 hex digest of the original
(unstripped) key.  Modelled as an injective digest — the identity on the
key string — since the code relies only on digest equality coinciding
with key equality (collision-freedom of SHA-256). -/
def createCheckSum (k : JStr) : JStr := k

/-- The expiration argument of `Cache.write`: the string `"never"` or a
`Duration` (carried as its `toMilliseconds` value). -/
inductive Expiration where
  | never
  | duration (ms : Nat)
  deriving DecidableEq, Repr

/-- An entry of the cache map, with the field names of the source object
literal (including the `isObfusacated` spelling). -/
structure CacheEntry where
  value : JSValue
  expiresOn : Expiration
  isObfusacated : Bool
  type : JStr
  checksum : JStr
  deriving DecidableEq, Repr

/-- `Map.prototype.get`, on the insertion-ordered association-list model
of a JavaScript `Map`. -/
def mapGet (m : List (Int × CacheEntry)) (k : Int) : Option CacheEntry :=
  (m.find? fun p => p.1 = k).map fun p => p.2

/-- `Map.prototype.set`: replaces in place if the key is present
(preserving insertion order), appends otherwise. -/
def mapSet (m : List (Int × CacheEntry)) (k : Int) (e : CacheEntry) :
    List (Int × CacheEntry) :=
  match m with
  | [] => [(k, e)]
  | p :: rest => if p.1 = k then (k, e) :: rest else p :: mapSet rest k e

/-- `Map.prototype.delete` (dropping the entry with the given key). -/
def mapDelete (m : List (Int × CacheEntry)) (k : Int) :
    List (Int × CacheEntry) :=
  m.filter fun p => p.1 ≠ k

/-- `Map.prototype.has`. -/
def mapHas (m : List (Int × CacheEntry)) (k : Int) : Bool :=
  (mapGet m k).isSome

/-- A job sitting in the write queue of the cache: the closure enqueued by
`Cache.write` captures the original key, the precomputed hashed key, the
(possibly already encoded) value, the expiration, the obfuscation flag
and the type tag of the original value. -/
structure WriteJob where
  key : JStr
  hKey : Int
  value : JSValue
  expiration : Expiration
  obfuscate : Bool
  type : JStr
  deriving DecidableEq, Repr

/-- The mutable state of a `Cache` object: the live map, the pause flag,
the temporary rotation map, the active key of the obfuscator, and the FIFO
contents of the write queue (`#writeQueue`, a `ProcessQueue(5000)`; the
capacity bound is verified on the standalone queue component). -/
structure CacheState where
  data : List (Int × CacheEntry)
  isPaused : Bool
  temp : List (Int × CacheEntry)
  fideliusCharm : Nat
  writeQueue : List WriteJob
  deriving DecidableEq, Repr

/-- A cache as built by the constructor, holding the generated obfuscator
key. -/
def cacheConstruct (key : Nat) : CacheState :=
  { data := [], isPaused := false, temp := [], fideliusCharm := key,
    writeQueue := [] }

/-- `Cache.#validateKeyCheckSum`: `true` for an absent key, else digest
equality with the checksum of the stored entry. -/
def validateKeyCheckSum (data : List (Int × CacheEntry)) (k : Int)
    (cks : JStr) : Bool :=
  match mapGet data k with
  | none => true
  | some e => e.checksum = cks

/-- `Cache.write` up to the enqueue: computes the type tag and hashed key,
rejects non-serializable values with `NON_CACHABLE_VALUE`, waits on the
pause gate (the model considers writes at unpaused states), encodes the
value under the active key when `obfuscate` is set (the fresh random IV is
the `iv` argument), and appends the job to the write queue.  The queued
job itself is `runWriteJob`. -/
def write (seed : Int) (st : CacheState) (k : JStr) (v : JSValue)
    (exp : Expiration) (obf : Bool) (iv : Nat) : Except CacheErr CacheState := do
  let ty := typeOfValue v
  let hKey ← createHashKey seed k
  if ty = "function".data ∨ ty = "undefined".data ∨ ty = "symbol".data then
    throw .nonCachableValue
  let v2 ←
    if obf then
      match encode st.fideliusCharm iv v with
      | some s => pure (JSValue.str s)
      | none => throw .unableToObfuscate
    else pure v
  pure { st with writeQueue := st.writeQueue ++
    [{ key := k, hKey := hKey, value := v2, expiration := exp,
       obfuscate := obf, type := ty }] }

/-- The queued write job: recomputes the checksum of the key; if it validates
against any existing entry at the hashed key, stores the entry (the TTL
cleanup timer scheduled for a `duration` expiration is bookkept by the
timer model elsewhere); otherwise logs a collision warning, deletes the
existing entry (`this.delete(key)` — recomputing the hash of the *new*
key) and does not store the new value.  Returns the new state and whether
the collision warning was logged.  (Seed validity was already required
for the job to be enqueued.) -/
def runWriteJob (seed : Int) (st : CacheState) (j : WriteJob) :
    CacheState × Bool :=
  let cks := createCheckSum j.key
  let entry : CacheEntry :=
    { value := j.value
      expiresOn := j.expiration
      isObfusacated := j.obfuscate
      type := j.type
      checksum := cks }
  if validateKeyCheckSum st.data j.hKey cks then
    ({ st with data := mapSet st.data j.hKey entry }, false)
  else
    ({ st with data := mapDelete st.data (hashKeyRaw seed j.key) }, true)

/-- Result of a `Cache.read` call that has passed the pause gate:
`nullRes` for an absent key, the stored or decoded value otherwise;
`decodeFailed` models the exception `Obfuscator.decode` throws
propagating out of `read`. -/
inductive ReadResult where
  | value (v : JSValue)
  | nullRes
  | decodeFailed (e : DecodeError)
  deriving DecidableEq, Repr

/-- `Cache.read`, at a state where the pause gate is open (`read` first
awaits `#pauseUntilOperationsResumed`, so it only proceeds while
`isPaused` is false — theorems about reads state that flag explicitly):
looks up the hashed key, returns null if absent, decodes through the
obfuscator if the entry is marked obfuscated, else returns the stored
value. -/
def readNow (seed : Int) (st : CacheState) (k : JStr) :
    Except CacheErr ReadResult := do
  let hKey ← createHashKey seed k
  match mapGet st.data hKey with
  | none => pure .nullRes
  | some e =>
    if e.isObfusacated then
      match decode st.fideliusCharm e.value with
      | .ok v => pure (.value v)
      | .error de => pure (.decodeFailed de)
    else
      pure (.value e.value)

/-- `Cache.has`: presence check by hashed key (no pause wait). -/
def hasKey (seed : Int) (st : CacheState) (k : JStr) : Except CacheErr Bool :=
  (createHashKey seed k).map fun h => mapHas st.data h

/-- `Cache.delete`: removes the entry at the hashed key, returning whether
one existed. -/
def deleteKey (seed : Int) (st : CacheState) (k : JStr) :
    Except CacheErr (Bool × CacheState) :=
  (createHashKey seed k).map fun h =>
    (mapHas st.data h, { st with data := mapDelete st.data h })

/-- `Cache.destroy`: sets the pause flag, clears all data, and clears the
pause flag again (net effect of the three synchronous statements). -/
def destroy (st : CacheState) : CacheState :=
  { st with data := [], isPaused := false }

/-- The `forEach` decode loop of the before-rotation hook: decodes each
value of each entry in insertion order, replacing it in place; a decode
exception aborts the loop (it is caught by the per-hook
`try/catch` of the emitter), leaving the failing entry and everything after it
untouched. -/
def decodePrefix (key : Nat) : List (Int × CacheEntry) → List (Int × CacheEntry)
  | [] => []
  | (k, e) :: rest =>
      match decode key e.value with
      | .ok v => (k, { e with value := v }) :: decodePrefix key rest
      | .error _ => (k, e) :: rest

/-- `Cache.#handleBeforeKeyRotated`: `this.#temp = new Map(this.#data)`
copies the key-to-entry-object references, so the in-place
`object.value = this.obfuscate.decode(object.value)` mutations are
visible through *both* maps — after the hook, the entries of the live map hold
the decoded plaintext while still marked obfuscated, and `isPaused` is
still false. -/
def handleBeforeKeyRotated (st : CacheState) : CacheState :=
  let processed := decodePrefix st.fideliusCharm st.data
  { st with temp := processed, data := processed }

/-- Re-encoding of one snapshot entry by `Cache.#handleKeyRotated`
(`object.value = this.obfuscate.encode(object.value)`); the `none` case
of `encode` (non-serializable value) cannot arise for entries created by
`write` and is modelled as leaving the value unchanged. -/
def reencodeEntry (key iv : Nat) (e : CacheEntry) : CacheEntry :=
  { e with value := match encode key iv e.value with
      | some s => .str s
      | none => e.value }

/-- `Cache.#handleKeyRotated`: sets `isPaused`, calls `destroy()` (which
clears the map and resets `isPaused` to false), re-encodes every snapshot
entry under the (already rotated) key, swaps the snapshot in as the live
map, sets `isPaused` false and clears the snapshot.  The whole handler is
synchronous, so its net effect is a single atomic step. -/
def handleKeyRotated (iv : Nat) (st : CacheState) : CacheState :=
  let temp2 := st.temp.map fun p => (p.1, reencodeEntry st.fideliusCharm iv p.2)
  { st with isPaused := false, data := temp2, temp := [] }

/-- State right after `rotateKey()` returns: `Obfuscator.emitter` has run
the registered before-hook (`#handleBeforeKeyRotated`) synchronously and
executed the awaited callback installing the new key, but `super.emit` —
which runs the `key_rotated` listener `#handleKeyRotated` — only executes
in a later microtask.  Any read already waiting in the microtask queue
can run at this state. -/
def rotationMidState (newKey : Nat) (st : CacheState) : CacheState :=
  { handleBeforeKeyRotated st with fideliusCharm := newKey }

/-- State after the whole rotation has completed (`#handleKeyRotated` has
run). -/
def rotationComplete (newKey iv : Nat) (st : CacheState) : CacheState :=
  handleKeyRotated iv (rotationMidState newKey st)

/-- One step of the drain loop of the write queue at the cache level: dequeue
the oldest queued job and run it (`ProcessQueue.execute` dequeues before
running, so the job is off the queue while it executes).  Returns the new
state and whether the job logged a collision warning. -/
def drainHead (seed : Int) (st : CacheState) : CacheState × Bool :=
  match st.writeQueue with
  | [] => (st, false)
  | j :: rest => runWriteJob seed { st with writeQueue := rest } j

/-- A `write` call followed by the drain of its queued job (the claims
quantify over states whose write queue is empty, so the drained job is
the one this `write` enqueued). -/
def writeAndDrain (seed : Int) (st : CacheState) (k : JStr) (v : JSValue)
    (exp : Expiration) (obf : Bool) (iv : Nat) :
    Except CacheErr (CacheState × Bool) :=
  (write seed st k v exp obf iv).map (drainHead seed)

/-- Whether a JavaScript value is a string (`typeof value === "string"`). -/
def isStringValue : JSValue → Bool
  | .str _ => true
  | _ => false

theorem mapGet_mapSet_self (m : List (Int × CacheEntry)) (k : Int)
    (e : CacheEntry) : mapGet (mapSet m k e) k = some e := by
  induction m with
  | nil => simp [mapGet, mapSet, List.find?]
  | cons p rest ih =>
      by_cases hp : p.1 = k
      · simp [mapSet, hp, mapGet, List.find?]
      · simp only [mapSet, if_neg hp]
        simp only [mapGet, List.find?] at ih ⊢
        simp [hp, ih]

theorem mapGet_mapDelete_self (m : List (Int × CacheEntry)) (k : Int) :
    mapGet (mapDelete m k) k = none := by
  induction m with
  | nil => simp [mapGet, mapDelete]
  | cons p rest ih =>
      by_cases hp : p.1 = k
      · simpa [mapDelete, hp] using ih
      · simp only [mapDelete, List.filter] at ih ⊢
        simp only [mapGet, List.find?] at ih ⊢
        simp [hp, ih]

namespace Queue

/-- Enqueue a list of items left to right, propagating the first failure
(the repeated-`enqueue` pattern of the queue-bounds test). -/
def enqueueAll {α : Type} (q : Queue α) : List α → Except JStr (Queue α)
  | [] => .ok q
  | x :: rest =>
      match enqueue q x with
      | .ok q' => enqueueAll q' rest
      | .error e => .error e

theorem enqueueAll_ok {α : Type} (xs : List α) (q : Queue α) (hInv : Inv q)
    (h : q.size + xs.length ≤ q.capacity) :
    ∃ qf, enqueueAll q xs = .ok qf ∧ qf.size = q.size + xs.length ∧
      qf.capacity = q.capacity ∧ Inv qf := by
  induction xs generalizing q with
  | nil => exact ⟨q, rfl, by simp, rfl, hInv⟩
  | cons x rest ih =>
      have hne : q.size ≠ q.capacity := by
        simp only [List.length_cons] at h
        omega
      obtain ⟨q', hq', hsz, hcap, hinv', _⟩ := enqueue_ok q x hInv hne
      obtain ⟨qf, hqf, hszf, hcapf, hinvf⟩ := ih q' hinv' (by
        simp only [List.length_cons] at h
        rw [hsz, hcap]
        omega)
      refine ⟨qf, ?_, ?_, ?_, hinvf⟩
      · simp [enqueueAll, hq', hqf]
      · rw [hszf, hsz]
        simp only [List.length_cons]
        omega
      · rw [hcapf, hcap]

end Queue



/-- Decidable equality for `Except`, needed to state the concrete
evaluations of the fallible operations. -/
instance exceptDecEq {ε α : Type} [DecidableEq ε] [DecidableEq α] :
    DecidableEq (Except ε α) := fun x y =>
  match x, y with
  | .ok a, .ok b =>
      if h : a = b then isTrue (by rw [h]) else isFalse (by simp [h])
  | .error a, .error b =>
      if h : a = b then isTrue (by rw [h]) else isFalse (by simp [h])
  | .ok _, .error _ => isFalse (by simp)
  | .error _, .ok _ => isFalse (by simp)

/-- Demo cache for the concrete scenarios: hash seed 7, obfuscator key 5
(all such constants are arbitrary; the hash seed is the
`CACHE_HASH_KEY_INITALIZER` configuration value). -/
def demoState : CacheState := cacheConstruct 5

/-- The result of writing the obfuscated number `7` under key `"k"` into
the demo cache and draining the queued job. -/
def obfWriteDemo : Except CacheErr (CacheState × Bool) :=
  writeAndDrain 7 demoState "k".data (.num 7) .never true 3

/-- The cache state after `obfWriteDemo` (the fallback branch is shown
unused by the theorems asserting the write succeeded). -/
def rotationDemoStart : CacheState :=
  (obfWriteDemo.toOption.map Prod.fst).getD demoState

/-- The rotation window state for the demo cache: the before-hook has run
and the new key (9) is installed, but the `key_rotated` listener has not
yet run. -/
def rotationDemoMid : CacheState := rotationMidState 9 rotationDemoStart

/-- The demo cache after the rotation has fully completed (new key 9,
re-encode IV 4). -/
def rotationDemoDone : CacheState := rotationComplete 9 4 rotationDemoStart

/-- C1: the no-partially-rotated-state-observed part of the claim fails on
the code.  With one entry written with `obfuscate = true` and drained, the
state reached after `rotateKey()` returns — before-hook executed, new key
installed, `key_rotated` listener still pending in the microtask queue —
has `isPaused = false`, yet the entry of the live map holds the in-place
decoded plaintext (`num 7`, not a string) while still marked obfuscated,
because `new Map(this.#data)` aliases the entry objects; a read running
at that state passes the pause gate and throws a `TypeError` out of
`decode` instead of returning the value.  After the listener completes,
the read round-trips again under the new key. -/
theorem C1_read_observes_partial_rotation :
    obfWriteDemo = .ok (rotationDemoStart, false) ∧
    rotationDemoMid.isPaused = false ∧
    ((mapGet rotationDemoMid.data (hashKeyRaw 7 "k".data)).map fun e =>
      (e.value, isStringValue e.value, e.isObfusacated)) =
        some (.num 7, false, true) ∧
    readNow 7 rotationDemoMid "k".data = .ok (.decodeFailed .typeError) ∧
    readNow 7 rotationDemoDone "k".data = .ok (.value (.num 7)) := by
  refine ⟨?_, rfl, ?_, ?_, ?_⟩ <;> decide

/-- C2 counterexample: a drain pass over a throwing job followed by a
healthy job logs the error but ends the pass with the second job still
queued and unexecuted, contradicting the claim that the loop continues
with the remaining jobs in the same pass. -/
theorem C2_counterexample :
    drainPass [⟨true, false, false⟩, ⟨false, false, false⟩] =
      ([⟨true, false, false⟩], [⟨false, false, false⟩], true) := by
  decide

/-- C2 (amended): if every job before `j` succeeds and `j` (or its
callback) throws, the drain pass executes exactly the jobs up to and
including `j`, logs the error, and leaves the jobs after `j` queued; and
repeated passes (each restarted by a later enqueue, since `finally`
resets `isExecuting`) execute every job in submission order. -/
theorem C2_drain_error_ends_pass (pre : List PJob) (j : PJob)
    (post : List PJob) (hpre : ∀ x ∈ pre, runJobThrows x = false)
    (hj : runJobThrows j = true) :
    drainPass (pre ++ j :: post) = (pre ++ [j], post, true) ∧
    drainAll (pre ++ j :: post) = pre ++ j :: post :=
  ⟨drainPass_remaining_of_throw pre j post hpre hj, drainAll_complete _⟩

/-- C2 witness: the amended drain-pass theorem applied at the concrete
two-job counterexample input. -/
theorem C2_drain_error_ends_pass_witness :
    drainPass ([] ++ (⟨true, false, false⟩ : PJob) :: [⟨false, false, false⟩]) =
      ([] ++ [⟨true, false, false⟩], [⟨false, false, false⟩], true) ∧
    drainAll ([] ++ (⟨true, false, false⟩ : PJob) :: [⟨false, false, false⟩]) =
      [] ++ (⟨true, false, false⟩ : PJob) :: [⟨false, false, false⟩] :=
  C2_drain_error_ends_pass [] ⟨true, false, false⟩ [⟨false, false, false⟩]
    (by simp) (by decide)

/-- The demo cache after writing the bigint `5` obfuscated under key
`"k"` and draining the job. -/
def bigintDemoState : CacheState :=
  ((writeAndDrain 7 demoState "k".data (.bigint 5) .never true 3).toOption.map
    Prod.fst).getD demoState

/-- C3: the round trip fails for bigints.  `toType`'s `bigint` case is
missing its `break`, so it falls through into the `boolean` case:
`decode (encode 5n)` yields `false`, both at the obfuscator level and
through a drained obfuscated `write` followed by `read`.  (The other
supported tags do round-trip; the number case is included for
contrast.) -/
theorem C3_bigint_roundtrip_fails :
    ((encode 5 3 (.bigint 5)).map fun s => decode 5 (.str s)) =
      some (.ok (.bool false)) ∧
    ((encode 5 3 (.num 7)).map fun s => decode 5 (.str s)) =
      some (.ok (.num 7)) ∧
    writeAndDrain 7 demoState "k".data (.bigint 5) .never true 3 =
      .ok (bigintDemoState, false) ∧
    readNow 7 bigintDemoState "k".data = .ok (.value (.bool false)) := by
  refine ⟨?_, ?_, ?_, ?_⟩ <;> decide

/-- C6: the rotation timer is *not* cancelled when the rotation period is
reassigned.  `setUnboundedTimeout` returns a clear function, and the
setter passes that function to `clearTimeout`, which ignores non-timeout
arguments; so after the setter runs, the original 90-day rotation timer
(id 0) is still pending alongside the newly scheduled one — the old
rotation still fires. -/
theorem C6_old_rotation_timer_still_pending :
    (obfConstruct 5).timers.pending = [(0, 7776000000)] ∧
    (obfConstruct 5).existingRotatorTimerObject = some (.clearFn 0) ∧
    (setDefaultKeyRotationDuration 9 (obfConstruct 5) 86400000).rotationMs
      = 86400000 ∧
    (setDefaultKeyRotationDuration 9 (obfConstruct 5) 86400000).timers.pending
      = [(0, 7776000000), (1, 86400000)] := by
  refine ⟨rfl, rfl, rfl, ?_⟩
  decide

/-- The demo cache after writing the plain (non-obfuscated) number `42`
under key `"k"` and draining the job. -/
def plainNumDemoState : CacheState :=
  ((writeAndDrain 7 demoState "k".data (.num 42) .never false 3).toOption.map
    Prod.fst).getD demoState

/-- C7 counterexample: a non-obfuscated write stores the *original* value
in the `value` field of the entry without serializing it — here the number
`42`, not the string `"42"` — refuting the claim that every live entry
holds a string. -/
theorem C7_counterexample :
    writeAndDrain 7 demoState "k".data (.num 42) .never false 3 =
      .ok (plainNumDemoState, false) ∧
    ((mapGet plainNumDemoState.data (hashKeyRaw 7 "k".data)).map fun e =>
      (e.value, isStringValue e.value, e.isObfusacated)) =
        some (.num 42, false, false) := by
  refine ⟨?_, ?_⟩ <;> decide


theorem write_ok_plain (seed : Int) (st : CacheState) (k : JStr) (v : JSValue)
    (exp : Expiration) (iv : Nat) (hseed : seed ≠ 0)
    (hty : ¬(typeOfValue v = "function".data ∨ typeOfValue v = "undefined".data
      ∨ typeOfValue v = "symbol".data)) :
    write seed st k v exp false iv = .ok { st with writeQueue :=
      st.writeQueue ++
        [WriteJob.mk k (hashKeyRaw seed k) v exp false (typeOfValue v)] } := by
  simp [write, createHashKey, hseed, hty, Except.bind, Except.pure, pure, bind]

theorem runWriteJob_store (seed : Int) (st : CacheState) (j : WriteJob)
    (hval : validateKeyCheckSum st.data j.hKey (createCheckSum j.key) = true) :
    runWriteJob seed st j =
      ({ st with data := (mapSet st.data j.hKey
          (CacheEntry.mk j.value j.expiration j.obfuscate j.type
            (createCheckSum j.key))) }, false) := by
  simp [runWriteJob, hval]

theorem runWriteJob_collide (seed : Int) (st : CacheState) (j : WriteJob)
    (hval : validateKeyCheckSum st.data j.hKey (createCheckSum j.key) = false) :
    runWriteJob seed st j =
      ({ st with data := mapDelete st.data (hashKeyRaw seed j.key) }, true) := by
  simp [runWriteJob, hval]

theorem writeAndDrain_store (seed : Int) (st : CacheState) (k : JStr)
    (v : JSValue) (exp : Expiration) (iv : Nat) (hseed : seed ≠ 0)
    (hqueue : st.writeQueue = [])
    (hty : ¬(typeOfValue v = "function".data ∨ typeOfValue v = "undefined".data
      ∨ typeOfValue v = "symbol".data))
    (hval : validateKeyCheckSum st.data (hashKeyRaw seed k)
      (createCheckSum k) = true) :
    writeAndDrain seed st k v exp false iv = .ok
      ({ st with
          data := (mapSet st.data (hashKeyRaw seed k)
            (CacheEntry.mk v exp false (typeOfValue v) (createCheckSum k)))
          writeQueue := [] }, false) := by
  rw [writeAndDrain, write_ok_plain seed st k v exp iv hseed hty]
  rw [hqueue]
  simp only [Except.map, List.nil_append]
  rw [drainHead]
  simp only []
  rw [runWriteJob_store]
  exact hval

theorem writeAndDrain_collide (seed : Int) (st : CacheState) (k : JStr)
    (v : JSValue) (exp : Expiration) (iv : Nat) (hseed : seed ≠ 0)
    (hqueue : st.writeQueue = [])
    (hty : ¬(typeOfValue v = "function".data ∨ typeOfValue v = "undefined".data
      ∨ typeOfValue v = "symbol".data))
    (hval : validateKeyCheckSum st.data (hashKeyRaw seed k)
      (createCheckSum k) = false) :
    writeAndDrain seed st k v exp false iv = .ok
      ({ st with
          data := (mapDelete st.data (hashKeyRaw seed k))
          writeQueue := [] }, true) := by
  rw [writeAndDrain, write_ok_plain seed st k v exp iv hseed hty]
  rw [hqueue]
  simp only [Except.map, List.nil_append]
  rw [drainHead]
  simp only []
  rw [runWriteJob_collide]
  exact hval

/-- C4: when a drained write job finds an existing entry at its derived
hashed key whose stored checksum differs from the checksum of the new key, the
job logs the collision warning (it throws nothing — `runWriteJob` is
total), deletes the existing entry via `this.delete(key)` (the hash of
the new key, which is the same bucket), does not store the new value, and
leaves the bucket empty. -/
theorem C4_collision_first_writer_wins (seed : Int) (st : CacheState)
    (j : WriteJob) (e : CacheEntry)
    (hkey : j.hKey = hashKeyRaw seed j.key)
    (hgot : mapGet st.data j.hKey = some e)
    (hcks : e.checksum ≠ createCheckSum j.key) :
    (runWriteJob seed st j).2 = true ∧
    (runWriteJob seed st j).1.data = mapDelete st.data j.hKey ∧
    mapGet (runWriteJob seed st j).1.data j.hKey = none := by
  have hval : validateKeyCheckSum st.data j.hKey (createCheckSum j.key)
      = false := by
    simp [validateKeyCheckSum, hgot, hcks]
  rw [runWriteJob_collide seed st j hval]
  refine ⟨rfl, ?_, ?_⟩
  · rw [hkey]
  · show mapGet (mapDelete st.data (hashKeyRaw seed j.key)) j.hKey = none
    rw [hkey]
    exact mapGet_mapDelete_self st.data (hashKeyRaw seed j.key)

/-- The demo cache after writing the plain number `1` under key `"ab"`
and draining the job. -/
def collisionDemoA : CacheState :=
  ((writeAndDrain 7 demoState "ab".data (.num 1) .never false 3).toOption.map
    Prod.fst).getD demoState

/-- The job that a `write` of the number `2` under key `"a b"` enqueues
(`"a b"` hashes to the bucket of `"ab"` because the hash strips
whitespace, while the checksum is taken over the untouched key). -/
def collisionJobB : WriteJob :=
  { key := "a b".data, hKey := hashKeyRaw 7 "a b".data, value := .num 2,
    expiration := .never, obfuscate := false, type := "number".data }

/-- C4 witness: the collision theorem applied to the concrete colliding
keys `"ab"` and `"a b"`. -/
theorem C4_collision_first_writer_wins_witness :
    (runWriteJob 7 collisionDemoA collisionJobB).2 = true ∧
    (runWriteJob 7 collisionDemoA collisionJobB).1.data =
      mapDelete collisionDemoA.data collisionJobB.hKey ∧
    mapGet (runWriteJob 7 collisionDemoA collisionJobB).1.data
      collisionJobB.hKey = none :=
  C4_collision_first_writer_wins 7 collisionDemoA collisionJobB
    (CacheEntry.mk (.num 1) .never false "number".data "ab".data)
    (by decide) (by decide) (by decide)


/-- Presence check unfolded: `has` returns the bucket lookup at the
hashed key. -/
theorem hasKey_ok (seed : Int) (st : CacheState) (k : JStr)
    (hseed : seed ≠ 0) :
    hasKey seed st k = .ok (mapHas st.data (hashKeyRaw seed k)) := by
  simp [hasKey, createHashKey, hseed, Except.map]

/-- Delete unfolded: removes the bucket at the hashed key and reports
whether it was present. -/
theorem deleteKey_ok (seed : Int) (st : CacheState) (k : JStr)
    (hseed : seed ≠ 0) :
    deleteKey seed st k = .ok (mapHas st.data (hashKeyRaw seed k),
      { st with data := mapDelete st.data (hashKeyRaw seed k) }) := by
  simp [deleteKey, createHashKey, hseed, Except.map]

theorem mapHas_mapSet_self (m : List (Int × CacheEntry)) (k : Int)
    (e : CacheEntry) : mapHas (mapSet m k e) k = true := by
  simp [mapHas, mapGet_mapSet_self]

theorem mapHas_mapDelete_self (m : List (Int × CacheEntry)) (k : Int) :
    mapHas (mapDelete m k) k = false := by
  simp [mapHas, mapGet_mapDelete_self]

/-- Read of a present non-obfuscated entry returns the stored value
as-is. -/
theorem readNow_plain (seed : Int) (st : CacheState) (k : JStr)
    (e : CacheEntry) (hseed : seed ≠ 0)
    (hget : mapGet st.data (hashKeyRaw seed k) = some e)
    (hobf : e.isObfusacated = false) :
    readNow seed st k = .ok (.value e.value) := by
  simp [readNow, createHashKey, hseed, hget, hobf, Except.bind, bind,
    Except.pure, pure]

/-- The result of then writing the plain number `2` under the colliding
key `"a b"` into `collisionDemoA` and draining the job. -/
def collisionDemoB : Except CacheErr (CacheState × Bool) :=
  writeAndDrain 7 collisionDemoA "a b".data (.num 2) .never false 3

/-- The cache state after `collisionDemoB`. -/
def collisionDemoAfterB : CacheState :=
  (collisionDemoB.toOption.map Prod.fst).getD demoState

/-- C5 counterexample: after writing key `"ab"` and then the colliding key
`"a b"` (both drained), the second job detects the checksum mismatch,
logs the collision warning (`true`), and deletes the bucket — so
`has("a b")` is `false`, not `true` as the claim states (`has("ab")` is
`false` as claimed). -/
theorem C5_counterexample :
    collisionDemoB = .ok (collisionDemoAfterB, true) ∧
    hasKey 7 collisionDemoAfterB "ab".data = .ok false ∧
    hasKey 7 collisionDemoAfterB "a b".data = .ok false := by
  refine ⟨?_, ?_, ?_⟩ <;> decide

/-- C5 (amended): for two keys that hash to the same bucket but have
different checksums, writing A and then B (both drained) leaves the
bucket empty: `has(A)` and `has(B)` are both false, the second drained
job logs a collision warning (the `true` component), and nothing is
thrown (both calls return `ok`). -/
theorem C5_amended_collision (seed : Int) (st : CacheState) (A B : JStr)
    (vA vB : JSValue) (expA expB : Expiration) (ivA ivB : Nat)
    (hseed : seed ≠ 0) (hqueue : st.writeQueue = [])
    (hA3 : ¬(typeOfValue vA = "function".data ∨
      typeOfValue vA = "undefined".data ∨ typeOfValue vA = "symbol".data))
    (hB3 : ¬(typeOfValue vB = "function".data ∨
      typeOfValue vB = "undefined".data ∨ typeOfValue vB = "symbol".data))
    (hhash : hashKeyRaw seed A = hashKeyRaw seed B)
    (hcks : createCheckSum A ≠ createCheckSum B)
    (hbucket : mapGet st.data (hashKeyRaw seed A) = none) :
    ∃ st1 st2, writeAndDrain seed st A vA expA false ivA = .ok (st1, false) ∧
      writeAndDrain seed st1 B vB expB false ivB = .ok (st2, true) ∧
      hasKey seed st2 A = .ok false ∧ hasKey seed st2 B = .ok false := by
  have hvalA : validateKeyCheckSum st.data (hashKeyRaw seed A)
      (createCheckSum A) = true := by
    simp [validateKeyCheckSum, hbucket]
  have h1 := writeAndDrain_store seed st A vA expA ivA hseed hqueue hA3 hvalA
  have hval2 : validateKeyCheckSum (mapSet st.data (hashKeyRaw seed A)
      (CacheEntry.mk vA expA false (typeOfValue vA) (createCheckSum A)))
      (hashKeyRaw seed B) (createCheckSum B) = false := by
    rw [← hhash]
    simp only [validateKeyCheckSum, mapGet_mapSet_self]
    exact decide_eq_false hcks
  have h2 := writeAndDrain_collide seed
    { st with
        data := (mapSet st.data (hashKeyRaw seed A)
          (CacheEntry.mk vA expA false (typeOfValue vA) (createCheckSum A)))
        writeQueue := [] }
    B vB expB ivB hseed rfl hB3 hval2
  have hA2 : hasKey seed
      { st with
          data := (mapDelete (mapSet st.data (hashKeyRaw seed A)
            (CacheEntry.mk vA expA false (typeOfValue vA)
              (createCheckSum A))) (hashKeyRaw seed B))
          writeQueue := [] } A = .ok false := by
    rw [hasKey_ok seed _ A hseed]
    dsimp only
    rw [hhash, mapHas_mapDelete_self]
  have hB2 : hasKey seed
      { st with
          data := (mapDelete (mapSet st.data (hashKeyRaw seed A)
            (CacheEntry.mk vA expA false (typeOfValue vA)
              (createCheckSum A))) (hashKeyRaw seed B))
          writeQueue := [] } B = .ok false := by
    rw [hasKey_ok seed _ B hseed]
    dsimp only
    rw [mapHas_mapDelete_self]
  exact ⟨_, _, h1, h2, hA2, hB2⟩

/-- C5 witness: the amended collision theorem applied at the concrete
keys `"ab"` and `"a b"` on the demo cache. -/
theorem C5_amended_collision_witness :
    ∃ st1 st2,
      writeAndDrain 7 demoState "ab".data (.num 1) .never false 3 =
        .ok (st1, false) ∧
      writeAndDrain 7 st1 "a b".data (.num 2) .never false 3 =
        .ok (st2, true) ∧
      hasKey 7 st2 "ab".data = .ok false ∧
      hasKey 7 st2 "a b".data = .ok false :=
  C5_amended_collision 7 demoState "ab".data "a b".data (.num 1) (.num 2)
    .never .never 3 3 (by decide) rfl (by decide) (by decide) (by decide)
    (by decide) rfl

/-- C10: the checksum is never consulted on the read path.  If `k1` has
been written (not obfuscated) and drained, then any key `k2` with the
same derived hash — for example equal to `k1` after removing whitespace —
reads back the value stored under `k1` (not null), `has(k2)` is true, and
`delete(k2)` removes that entry: `read`, `has` and `delete` go only
through the hashed key and never compare checksums. -/
theorem C10_read_ignores_checksum (seed : Int) (st : CacheState)
    (k1 k2 : JStr) (v : JSValue) (exp : Expiration) (iv : Nat)
    (hseed : seed ≠ 0) (hqueue : st.writeQueue = [])
    (hty : ¬(typeOfValue v = "function".data ∨
      typeOfValue v = "undefined".data ∨ typeOfValue v = "symbol".data))
    (hhash : hashKeyRaw seed k1 = hashKeyRaw seed k2)
    (hval : validateKeyCheckSum st.data (hashKeyRaw seed k1)
      (createCheckSum k1) = true) :
    ∃ st1, writeAndDrain seed st k1 v exp false iv = .ok (st1, false) ∧
      readNow seed st1 k2 = .ok (.value v) ∧
      hasKey seed st1 k2 = .ok true ∧
      ∃ st2, deleteKey seed st1 k2 = .ok (true, st2) ∧
        mapGet st2.data (hashKeyRaw seed k1) = none := by
  have h1 := writeAndDrain_store seed st k1 v exp iv hseed hqueue hty hval
  have hget : mapGet (mapSet st.data (hashKeyRaw seed k1)
      (CacheEntry.mk v exp false (typeOfValue v) (createCheckSum k1)))
      (hashKeyRaw seed k2) =
        some (CacheEntry.mk v exp false (typeOfValue v)
          (createCheckSum k1)) := by
    rw [← hhash]
    exact mapGet_mapSet_self _ _ _
  have h2 : readNow seed
      { st with
          data := (mapSet st.data (hashKeyRaw seed k1)
            (CacheEntry.mk v exp false (typeOfValue v) (createCheckSum k1)))
          writeQueue := [] } k2 = .ok (.value v) :=
    readNow_plain seed _ k2
      (CacheEntry.mk v exp false (typeOfValue v) (createCheckSum k1))
      hseed hget rfl
  have h3 : hasKey seed
      { st with
          data := (mapSet st.data (hashKeyRaw seed k1)
            (CacheEntry.mk v exp false (typeOfValue v) (createCheckSum k1)))
          writeQueue := [] } k2 = .ok true := by
    rw [hasKey_ok seed _ k2 hseed]
    dsimp only
    rw [← hhash, mapHas_mapSet_self]
  have h4 := deleteKey_ok seed
    { st with
        data := (mapSet st.data (hashKeyRaw seed k1)
          (CacheEntry.mk v exp false (typeOfValue v) (createCheckSum k1)))
        writeQueue := [] } k2 hseed
  rw [show mapHas (mapSet st.data (hashKeyRaw seed k1)
      (CacheEntry.mk v exp false (typeOfValue v) (createCheckSum k1)))
      (hashKeyRaw seed k2) = true by
    rw [← hhash, mapHas_mapSet_self]] at h4
  have h5 : mapGet (mapDelete (mapSet st.data (hashKeyRaw seed k1)
      (CacheEntry.mk v exp false (typeOfValue v) (createCheckSum k1)))
      (hashKeyRaw seed k2)) (hashKeyRaw seed k1) = none := by
    rw [hhash]
    exact mapGet_mapDelete_self _ _
  exact ⟨_, h1, h2, h3, _, h4, h5⟩

/-- C10 witness: the read-path theorem applied at the concrete colliding
keys `"ab"` (written) and `"a b"` (read back) on the demo cache. -/
theorem C10_read_ignores_checksum_witness :
    ∃ st1,
      writeAndDrain 7 demoState "ab".data (.num 1) .never false 3 =
        .ok (st1, false) ∧
      readNow 7 st1 "a b".data = .ok (.value (.num 1)) ∧
      hasKey 7 st1 "a b".data = .ok true ∧
      ∃ st2, deleteKey 7 st1 "a b".data = .ok (true, st2) ∧
        mapGet st2.data (hashKeyRaw 7 "ab".data) = none :=
  C10_read_ignores_checksum 7 demoState "ab".data "a b".data (.num 1)
    .never 3 (by decide) rfl (by decide) (by decide) rfl


/-- C9: writing a function, undefined, or symbol value throws the
`NON_CACHABLE_VALUE` cache exception synchronously, before the job is
enqueued.  In this pure model an error result carries no new state, which
is exactly the claim: the write queue and the cache map are untouched
(only the returned state of a successful `write` carries the appended
job). -/
theorem C9_noncachable_rejected (seed : Int) (st : CacheState) (k : JStr)
    (v : JSValue) (exp : Expiration) (obf : Bool) (iv : Nat)
    (hseed : seed ≠ 0)
    (hty : typeOfValue v = "function".data ∨
      typeOfValue v = "undefined".data ∨ typeOfValue v = "symbol".data) :
    write seed st k v exp obf iv = .error .nonCachableValue := by
  simp only [write, createHashKey, if_neg hseed]
  show (if typeOfValue v = "function".data ∨
      typeOfValue v = "undefined".data ∨ typeOfValue v = "symbol".data
    then throw CacheErr.nonCachableValue else _) = _
  rw [if_pos hty]
  rfl

/-- C9 witness: writing a function value into the demo cache throws
`NON_CACHABLE_VALUE`. -/
theorem C9_noncachable_rejected_witness :
    write 7 demoState "k".data .fn .never false 3 =
      .error .nonCachableValue :=
  C9_noncachable_rejected 7 demoState "k".data .fn .never false 3
    (by decide) (by decide)

/-- C8: the bounded FIFO queue contract.  For any queue satisfying the
structural invariant: `enqueue` fails with `Queue is full` exactly when
`size = capacity` and otherwise appends to the FIFO contents with `size`
incremented; `dequeue` and `peek` fail with `Queue is empty` exactly when
`size = 0`, and `dequeue` otherwise returns the oldest item (the head of
the contents, via the circular front index) with `size` decremented and
the contents shifted; and from a fresh queue, `capacity` consecutive
enqueues succeed while one more fails with `Queue is full`. -/
theorem C8_bounded_fifo_contract {α : Type} (q : Queue α) (x : α)
    (hInv : Queue.Inv q) :
    (q.size = q.capacity → Queue.enqueue q x = .error "Queue is full".data) ∧
    (q.size ≠ q.capacity → ∃ q', Queue.enqueue q x = .ok q' ∧
      q'.size = q.size + 1 ∧ Queue.Inv q' ∧
      Queue.contents q' = Queue.contents q ++ [some x]) ∧
    (q.size = 0 → Queue.dequeue q = .error "Queue is empty".data ∧
      Queue.peek q = .error "Queue is empty".data) ∧
    (q.size ≠ 0 → ∃ item q', Queue.dequeue q = .ok (item, q') ∧
      item = (Queue.contents q).headD none ∧ q'.size = q.size - 1 ∧
      Queue.Inv q' ∧ Queue.contents q' = (Queue.contents q).tail) ∧
    (∀ xs : List α, xs.length = q.capacity → ∀ y : α,
      ∃ qf, Queue.enqueueAll (Queue.make α q.capacity) xs = .ok qf ∧
        Queue.enqueue qf y = .error "Queue is full".data) := by
  refine ⟨fun h => Queue.enqueue_full q x h, ?_, fun h => Queue.dequeue_empty q h,
    fun h => Queue.dequeue_ok q hInv h, ?_⟩
  · intro h
    obtain ⟨q', h1, h2, _, h4, h5⟩ := Queue.enqueue_ok q x hInv h
    exact ⟨q', h1, h2, h4, h5⟩
  · intro xs hlen y
    obtain ⟨qf, h1, h2, h3, h4⟩ := Queue.enqueueAll_ok xs
      (Queue.make α q.capacity) (Queue.inv_make α q.capacity hInv.capacity_pos)
      (by simp [Queue.make, hlen])
    refine ⟨qf, h1, Queue.enqueue_full qf y ?_⟩
    rw [h2, h3]
    simp [Queue.make, hlen]

/-- C8 witness: the queue contract applied to a fresh queue of capacity 2
holding naturals. -/
theorem C8_bounded_fifo_contract_witness :
    ((Queue.make Nat 2).size = (Queue.make Nat 2).capacity →
      Queue.enqueue (Queue.make Nat 2) 0 = .error "Queue is full".data) ∧
    ((Queue.make Nat 2).size ≠ (Queue.make Nat 2).capacity →
      ∃ q', Queue.enqueue (Queue.make Nat 2) 0 = .ok q' ∧
        q'.size = (Queue.make Nat 2).size + 1 ∧ Queue.Inv q' ∧
        Queue.contents q' = Queue.contents (Queue.make Nat 2) ++ [some 0]) ∧
    ((Queue.make Nat 2).size = 0 →
      Queue.dequeue (Queue.make Nat 2) = .error "Queue is empty".data ∧
      Queue.peek (Queue.make Nat 2) = .error "Queue is empty".data) ∧
    ((Queue.make Nat 2).size ≠ 0 → ∃ item q',
      Queue.dequeue (Queue.make Nat 2) = .ok (item, q') ∧
      item = (Queue.contents (Queue.make Nat 2)).headD none ∧
      q'.size = (Queue.make Nat 2).size - 1 ∧ Queue.Inv q' ∧
      Queue.contents q' = (Queue.contents (Queue.make Nat 2)).tail) ∧
    (∀ xs : List Nat, xs.length = (Queue.make Nat 2).capacity → ∀ y : Nat,
      ∃ qf, Queue.enqueueAll (Queue.make Nat 2 : Queue Nat) xs = .ok qf ∧
        Queue.enqueue qf y = .error "Queue is full".data) :=
  C8_bounded_fifo_contract (Queue.make Nat 2) 0
    ⟨by decide, by decide, by decide, by decide, by decide⟩


/-- The amended per-entry invariant: an obfuscated entry holds a
(ciphertext) string, and every stored value is serializable (so key
rotation can re-encode it). -/
def entryWF (e : CacheEntry) : Prop :=
  (e.isObfusacated = true → isStringValue e.value = true) ∧
    (converttostring e.value).isSome = true

/-- The amended map invariant: every live entry satisfies `entryWF`. -/
def dataWF (m : List (Int × CacheEntry)) : Prop :=
  ∀ p ∈ m, entryWF p.2

theorem serializable_of_typeok (v : JSValue)
    (hty : ¬(typeOfValue v = "function".data ∨
      typeOfValue v = "undefined".data ∨ typeOfValue v = "symbol".data)) :
    (converttostring v).isSome = true := by
  cases v <;> simp_all [typeOfValue, converttostring]

theorem toType_serializable (s ty : JStr) :
    (converttostring (toType s ty)).isSome = true := by
  rw [toType]
  split_ifs <;> simp [converttostring]

theorem mem_mapSet (m : List (Int × CacheEntry)) (k : Int) (e : CacheEntry)
    (p : Int × CacheEntry) (hp : p ∈ mapSet m k e) :
    p = (k, e) ∨ p ∈ m := by
  induction m with
  | nil =>
      simp [mapSet] at hp
      exact Or.inl hp
  | cons q rest ih =>
      by_cases hq : q.1 = k
      · simp only [mapSet, if_pos hq, List.mem_cons] at hp
        rcases hp with hp | hp
        · exact Or.inl hp
        · exact Or.inr (List.mem_cons_of_mem q hp)
      · simp only [mapSet, if_neg hq, List.mem_cons] at hp
        rcases hp with hp | hp
        · exact Or.inr (by simp [hp])
        · rcases ih hp with h | h
          · exact Or.inl h
          · exact Or.inr (List.mem_cons_of_mem q h)

theorem dataWF_mapSet (m : List (Int × CacheEntry)) (k : Int)
    (e : CacheEntry) (hm : dataWF m) (he : entryWF e) :
    dataWF (mapSet m k e) := by
  intro p hp
  rcases mem_mapSet m k e p hp with h | h
  · rw [h]
    exact he
  · exact hm p h

theorem dataWF_mapDelete (m : List (Int × CacheEntry)) (k : Int)
    (hm : dataWF m) : dataWF (mapDelete m k) := by
  intro p hp
  exact hm p (List.mem_of_mem_filter hp)

theorem decode_ok_shape (key : Nat) (v w : JSValue)
    (hd : decode key v = .ok w) : ∃ s ty, w = toType s ty := by
  cases v with
  | str s =>
      simp only [decode] at hd
      split at hd
      · cases hd
        exact ⟨_, _, rfl⟩
      · cases hd
  | num n => cases hd
  | bool b => cases hd
  | bigint n => cases hd
  | obj j => cases hd
  | arr j => cases hd
  | fn => cases hd
  | undef => cases hd
  | sym => cases hd

theorem decodePrefix_serializable (key : Nat)
    (m : List (Int × CacheEntry))
    (hm : ∀ p ∈ m, (converttostring p.2.value).isSome = true) :
    ∀ p ∈ decodePrefix key m, (converttostring p.2.value).isSome = true := by
  induction m with
  | nil => simp [decodePrefix]
  | cons q rest ih =>
      intro p hp
      rw [decodePrefix] at hp
      rcases hd : decode key q.2.value with e | v
      · rw [hd] at hp
        rcases List.mem_cons.mp hp with h | h
        · rw [h]
          exact hm q (by simp)
        · exact hm p (by simp [h])
      · rw [hd] at hp
        rcases List.mem_cons.mp hp with h | h
        · rw [h]
          show (converttostring v).isSome = true
          obtain ⟨s2, ty2, hw⟩ := decode_ok_shape key q.2.value v hd
          rw [hw]
          exact toType_serializable _ _
        · exact ih (fun r hr => hm r (by simp [hr])) p h

theorem reencode_string_of_serializable (key iv : Nat) (e : CacheEntry)
    (he : (converttostring e.value).isSome = true) :
    isStringValue (reencodeEntry key iv e).value = true := by
  obtain ⟨p, hp⟩ := Option.isSome_iff_exists.mp he
  simp [reencodeEntry, encode, hp, isStringValue]

theorem rotationComplete_data (newKey iv : Nat) (st : CacheState) :
    (rotationComplete newKey iv st).data =
      (decodePrefix st.fideliusCharm st.data).map fun p =>
        (p.1, reencodeEntry newKey iv p.2) := rfl

theorem write_ok_obf (seed : Int) (st : CacheState) (k : JStr) (v : JSValue)
    (exp : Expiration) (iv : Nat) (s : JStr) (hseed : seed ≠ 0)
    (hty : ¬(typeOfValue v = "function".data ∨ typeOfValue v = "undefined".data
      ∨ typeOfValue v = "symbol".data))
    (henc : encode st.fideliusCharm iv v = some s) :
    write seed st k v exp true iv = .ok { st with writeQueue :=
      st.writeQueue ++
        [WriteJob.mk k (hashKeyRaw seed k) (.str s) exp true (typeOfValue v)] } := by
  simp [write, createHashKey, hseed, hty, henc, Except.bind, Except.pure,
    pure, bind]

theorem writeAndDrain_store_obf (seed : Int) (st : CacheState) (k : JStr)
    (v : JSValue) (exp : Expiration) (iv : Nat) (s : JStr)
    (hseed : seed ≠ 0) (hqueue : st.writeQueue = [])
    (hty : ¬(typeOfValue v = "function".data ∨ typeOfValue v = "undefined".data
      ∨ typeOfValue v = "symbol".data))
    (henc : encode st.fideliusCharm iv v = some s)
    (hval : validateKeyCheckSum st.data (hashKeyRaw seed k)
      (createCheckSum k) = true) :
    writeAndDrain seed st k v exp true iv = .ok
      ({ st with
          data := (mapSet st.data (hashKeyRaw seed k)
            (CacheEntry.mk (.str s) exp true (typeOfValue v)
              (createCheckSum k)))
          writeQueue := [] }, false) := by
  rw [writeAndDrain, write_ok_obf seed st k v exp iv s hseed hty henc]
  rw [hqueue]
  simp only [Except.map, List.nil_append]
  rw [drainHead]
  simp only []
  rw [runWriteJob_store]
  exact hval

/-- C7 (amended): every live entry holds a ciphertext string when
`isObfuscated` and otherwise holds the *original* value exactly as passed
to `write` (unserialized — a string only when the original value was a
string).  This invariant is established by drained writes (plain writes
store the value itself; obfuscated writes store the encode output), is
preserved by `delete` and `destroy`, and after a completed key rotation
every entry value is again a string (the re-encode output). -/
theorem C7_amended_value_invariant (seed : Int) (st : CacheState)
    (k : JStr) (v : JSValue) (exp : Expiration) (iv : Nat)
    (hseed : seed ≠ 0) (hqueue : st.writeQueue = [])
    (hty : ¬(typeOfValue v = "function".data ∨
      typeOfValue v = "undefined".data ∨ typeOfValue v = "symbol".data))
    (hval : validateKeyCheckSum st.data (hashKeyRaw seed k)
      (createCheckSum k) = true)
    (hdata : dataWF st.data) :
    (∃ st1, writeAndDrain seed st k v exp false iv = .ok (st1, false) ∧
      mapGet st1.data (hashKeyRaw seed k) =
        some (CacheEntry.mk v exp false (typeOfValue v) (createCheckSum k)) ∧
      dataWF st1.data) ∧
    (∀ s, encode st.fideliusCharm iv v = some s →
      ∃ st1, writeAndDrain seed st k v exp true iv = .ok (st1, false) ∧
        mapGet st1.data (hashKeyRaw seed k) =
          some (CacheEntry.mk (.str s) exp true (typeOfValue v)
            (createCheckSum k)) ∧
        dataWF st1.data) ∧
    dataWF (destroy st).data ∧
    (∀ k2 b st2, deleteKey seed st k2 = .ok (b, st2) → dataWF st2.data) ∧
    (∀ newKey iv2, dataWF (rotationComplete newKey iv2 st).data ∧
      ∀ p ∈ (rotationComplete newKey iv2 st).data,
        isStringValue p.2.value = true) := by
  have hser : (converttostring v).isSome = true := serializable_of_typeok v hty
  refine ⟨?_, ?_, ?_, ?_, ?_⟩
  · refine ⟨_, writeAndDrain_store seed st k v exp iv hseed hqueue hty hval,
      mapGet_mapSet_self _ _ _, ?_⟩
    exact dataWF_mapSet _ _ _ hdata ⟨(fun hcon => nomatch hcon), hser⟩
  · intro s henc
    refine ⟨_, writeAndDrain_store_obf seed st k v exp iv s hseed hqueue hty
      henc hval, mapGet_mapSet_self _ _ _, ?_⟩
    exact dataWF_mapSet _ _ _ hdata
      ⟨fun _ => rfl, by simp [converttostring]⟩
  · intro p hp
    cases hp
  · intro k2 b st2 hdel
    rw [deleteKey_ok seed st k2 hseed] at hdel
    have h2 : st2 = { st with data := mapDelete st.data (hashKeyRaw seed k2) } := by
      cases hdel
      rfl
    rw [h2]
    exact dataWF_mapDelete _ _ hdata
  · intro newKey iv2
    have hall : ∀ p ∈ (rotationComplete newKey iv2 st).data,
        isStringValue p.2.value = true := by
      intro p hp
      rw [rotationComplete_data] at hp
      obtain ⟨q, hq, hpq⟩ := List.mem_map.mp hp
      rw [← hpq]
      exact reencode_string_of_serializable newKey iv2 q.2
        (decodePrefix_serializable st.fideliusCharm st.data
          (fun r hr => (hdata r hr).2) q hq)
    refine ⟨?_, hall⟩
    intro p hp
    have hs := hall p hp
    constructor
    · intro _
      exact hs
    · obtain ⟨s2, hs2⟩ : ∃ s2, p.2.value = .str s2 := by
        rcases hv : p.2.value with s2 | n | b | n | j | j | _ | _ | _
        · exact ⟨s2, rfl⟩
        all_goals rw [hv] at hs
        all_goals simp [isStringValue] at hs
      rw [hs2]
      simp [converttostring]

/-- C7 witness: the amended invariant theorem applied at the demo cache
with the plain number 42 under key `"k"`. -/
theorem C7_amended_value_invariant_witness :
    (∃ st1, writeAndDrain 7 demoState "k".data (.num 42) .never false 3 =
        .ok (st1, false) ∧
      mapGet st1.data (hashKeyRaw 7 "k".data) =
        some (CacheEntry.mk (.num 42) .never false "number".data
          (createCheckSum "k".data)) ∧
      dataWF st1.data) ∧
    (∀ s, encode demoState.fideliusCharm 3 (.num 42) = some s →
      ∃ st1, writeAndDrain 7 demoState "k".data (.num 42) .never true 3 =
          .ok (st1, false) ∧
        mapGet st1.data (hashKeyRaw 7 "k".data) =
          some (CacheEntry.mk (.str s) .never true "number".data
            (createCheckSum "k".data)) ∧
        dataWF st1.data) ∧
    dataWF (destroy demoState).data ∧
    (∀ k2 b st2, deleteKey 7 demoState k2 = .ok (b, st2) → dataWF st2.data) ∧
    (∀ newKey iv2, dataWF (rotationComplete newKey iv2 demoState).data ∧
      ∀ p ∈ (rotationComplete newKey iv2 demoState).data,
        isStringValue p.2.value = true) :=
  C7_amended_value_invariant 7 demoState "k".data (.num 42) .never 3
    (by decide) rfl (by decide) (by decide) (by intro p hp; cases hp)

end JsCache
